import Mathlib

/-!
Verification of the RAG core of the hackathon tax assistant
(`ingest.py`, `app.py`, `ca_convo.py`) against its natural-language
specification.  The Python functions are shallowly embedded as Lean
definitions: stateful loops become folds with explicit state, machine
floats become real numbers, and raised exceptions become `Except`
values.  External capabilities (the embedding client, the completion
client, the filesystem) are passed in as explicit arguments.
-/

/- ### Chunker (`ingest.py`, `chunk_lines`) -/

/-- Total character count of a list of lines, exactly the running `size`
variable of `chunk_lines` (which never counts the newline separators). -/
def sumLen (l : List String) : Nat := (l.map String.length).sum

/-- The backward walk of `chunk_lines` over `reversed(buffer)`:
accumulate lines into `overlap_buf` and stop right after the
accumulated character count exceeds `overlap`.  The argument list is
the reversed buffer; `acc` is `overlap_chars` so far. -/
def takeOverlapRev (overlap : Nat) (acc : Nat) : List String → List String
  | [] => []
  | bl :: rest =>
    if acc + bl.length > overlap then [bl]
    else bl :: takeOverlapRev overlap (acc + bl.length) rest

/-- Model of `buffer = list(reversed(overlap_buf))` after the backward walk:
the trailing slice of `buffer` seeding the next chunk. -/
def overlapTail (buffer : List String) (overlap : Nat) : List String :=
  (takeOverlapRev overlap 0 buffer.reverse).reverse

/-- One iteration of the `for line in lines` loop of `chunk_lines`.
State is `(buffer, chunks yielded so far)`; `size` is recovered as
`sumLen buffer`, which is exactly what the incremental updates maintain. -/
def chunkStep (maxChars overlap : Nat)
    (st : List String × List (List String)) (line : String) :
    List String × List (List String) :=
  if sumLen st.1 + line.length + 1 > maxChars ∧ st.1 ≠ [] then
    (overlapTail st.1 overlap ++ [line], st.2 ++ [st.1])
  else
    (st.1 ++ [line], st.2)

/-- Model of `chunk_lines`, with each yielded chunk kept as its list of lines
(the generator yields their `"\n"`-join; see `chunk_lines` below). -/
def chunkLinesList (lines : List String) (maxChars overlap : Nat) :
    List (List String) :=
  let st := lines.foldl (chunkStep maxChars overlap) ([], [])
  if st.1 = [] then st.2 else st.2 ++ [st.1]

/-- Model of `chunk_lines(lines, max_chars, overlap)` from `ingest.py`: the
sequence of yielded strings, each the `"\n"`-join of a buffer. -/
def chunk_lines (lines : List String) (maxChars overlap : Nat) : List String :=
  (chunkLinesList lines maxChars overlap).map (String.intercalate "\n")

/- ### `load_and_chunk` (`ingest.py`) -/

/-- Model of `load_and_chunk` from `ingest.py`.  The file read plus parse
(json flatten, or non-blank line split) is an external effect and is
passed in as its outcome: `Except.error` when any exception was raised
while reading or parsing, `Except.ok lines` otherwise.  The body's
`try`/`except Exception` returns `[]` on any error. -/
def load_and_chunk (loaded : Except String (List String))
    (maxChars overlap : Nat) : List String :=
  match loaded with
  | Except.ok lines => chunk_lines lines maxChars overlap
  | Except.error _ => []

/-- The per-file accumulation loop of `ingest.main`: each file
contributes the chunks `load_and_chunk` produced for it, in order. -/
def mainAllChunks (loadedFiles : List (Except String (List String)))
    (maxChars overlap : Nat) : List String :=
  (loadedFiles.map (fun l => load_and_chunk l maxChars overlap)).flatten

/- ### `ingest.main` guard sequence -/

/-- Outcome of a run of `ingest.main`, as far as its guard sequence and
the final store write are concerned. -/
inductive MainOutcome where
  | sysExit (msg : String) : MainOutcome
  | earlyReturn : MainOutcome
  | wrote (numFiles : Nat) : MainOutcome
deriving DecidableEq, Repr

/-- Whether the outcome raised an error condition (`SystemExit`); a
plain `return` after a printed notice is not an error. -/
def MainOutcome.isErrorSignal : MainOutcome → Bool
  | MainOutcome.sysExit _ => true
  | _ => false

/-- Whether the outcome wrote (overwrote) the embeddings store. -/
def MainOutcome.wroteStore : MainOutcome → Bool
  | MainOutcome.wrote _ => true
  | _ => false

/-- The guard sequence of `ingest.main`: `EMBED_MODEL` check, then the
existing-output check (`print` + `return` when the output exists and
`--force` was not given), then the data-directory and file-discovery
checks, then the chunk/embed/write pipeline. -/
def ingestMain (embedModelSet outExists force dataDirExists : Bool)
    (numFiles : Nat) : MainOutcome :=
  if ¬embedModelSet then
    MainOutcome.sysExit "EMBED_MODEL not set."
  else if outExists ∧ ¬force then
    MainOutcome.earlyReturn
  else if ¬dataDirExists then
    MainOutcome.sysExit "Data directory not found"
  else if numFiles = 0 then
    MainOutcome.sysExit "No supported files found"
  else
    MainOutcome.wrote numFiles

/- ### Retriever (`app.py`: `cosine`, `retrieve`) -/

/-- Model of `np.dot` on two equal-length float vectors, over the reals. -/
def dotR (a b : List ℝ) : ℝ := (List.zipWith (fun x y => x * y) a b).sum

/-- Model of `np.linalg.norm`: the Euclidean norm, over the reals. -/
noncomputable def normR (a : List ℝ) : ℝ :=
  Real.sqrt ((a.map (fun x => x * x)).sum)

/-- Model of `cosine(a, b)` from `app.py`:
`np.dot(a, b) / (np.linalg.norm(a) * np.linalg.norm(b) + 1e-9)`. -/
noncomputable def cosine (a b : List ℝ) : ℝ :=
  dotR a b / (normR a * normR b + 1 / 1000000000)

/-- One record of the loaded `KB` corpus (the fields `retrieve` uses). -/
structure KBRec where
  text : String
  embedding : List ℝ

/-- Insert `x` (which occurs earlier in the original list than every
element of the argument list) into a descending-sorted list, keeping it
before the first element whose key is `≤` its own: this is the unique
stable descending insertion, matching CPython's stable
`list.sort(key=..., reverse=True)` on ties. -/
noncomputable def insertDesc {α : Type} (key : α → ℝ) (x : α) :
    List α → List α
  | [] => [x]
  | y :: ys => if key y ≤ key x then x :: y :: ys else y :: insertDesc key x ys

/-- Stable descending sort by a real-valued key, modelling
`scored.sort(key=lambda x: x[0], reverse=True)` (CPython's sort is
stable, and `reverse=True` keeps equal-key elements in original order). -/
noncomputable def sortDesc {α : Type} (key : α → ℝ) : List α → List α
  | [] => []
  | x :: xs => insertDesc key x (sortDesc key xs)

/-- Python's `l[:k]` for an arbitrary integer `k`: the first `k`
elements when `k ≥ 0`, everything but the last `-k` elements when
`k < 0` (clamped at empty). -/
def pySlice {α : Type} (k : ℤ) (l : List α) : List α :=
  if 0 ≤ k then l.take k.toNat else l.take ((l.length : ℤ) + k).toNat

/-- Model of `retrieve(query, k)` from `app.py`, with the external embedding call
`embed(query)` passed in as the query vector `qv` and the module-level
`KB` passed in as `kb`: score every record with `cosine`, sort the
scored list descending (stably), slice `[:k]`, and drop the scores. -/
noncomputable def retrieve (qv : List ℝ) (kb : List KBRec) (k : ℤ) :
    List KBRec :=
  pySlice k (sortDesc (fun rec => cosine qv rec.embedding) kb)

/- ### Prompt assembly (`app.py`: `chat`) -/

/-- A chat message dict `{"role": ..., "content": ...}`. -/
structure Msg where
  role : String
  content : String
deriving DecidableEq, Repr

/-- Python's `l[-n:]` for `n > 0`: the trailing slice of at most `n`
elements (the whole list when it is shorter than `n`). -/
def pyLastSlice {α : Type} (n : Nat) (l : List α) : List α :=
  l.drop (l.length - n)

/-- The `context_text` built in `chat`: the retrieved chunk texts,
each labelled `[Chunk i]` and joined with blank lines.  The Python
f-string uses `\\n` (a literal backslash followed by `n`, not a
newline) between the label and the text, reproduced faithfully here. -/
def contextTextOf (texts : List String) : String :=
  String.intercalate "\n\n"
    ((texts.enum).map (fun p => "[Chunk " ++ toString p.1 ++ "]\\n" ++ p.2))

/-- The fixed instruction block of the `user_content` f-string in
`chat` (everything after the context section). -/
def instructionsBlock : String :=
  "\n\nInstructions: \n1. Provide comprehensive analysis using structured tables\n2. Always include tax optimization opportunities when applicable\n3. Compare old vs new regime when income/tax calculations are involved\n4. Suggest specific investment options and amounts\n5. Provide actionable next steps\n6. Use the provided context for accurate figures and calculations\n\nAnswer:"

/-- The `user_content` f-string of `chat`: question, context section,
then the fixed instruction block. -/
def userContent (question contextText : String) : String :=
  "Question: " ++ question ++ "\n\nContext:\n" ++ contextText ++ instructionsBlock

/-- The message assembly of `chat`: one system message, then
`req.history[-5:]`, then exactly one final user message built from the
question and the context text. -/
def assembleMessages (systemPrompt : String) (history : List Msg)
    (question contextText : String) : List Msg :=
  Msg.mk "system" systemPrompt ::
    (pyLastSlice 5 history ++ [Msg.mk "user" (userContent question contextText)])

/- ### Orchestrator suggestion rules (`app.py`: `analyze_tax_scenario`) -/

/-- Model of `needle in hay` on character lists (Python's substring test). -/
def hasSubstr (needle : List Char) : List Char → Bool
  | [] => needle.isEmpty
  | c :: t => needle.isPrefixOf (c :: t) || hasSubstr needle t

/-- Python's `needle in hay` for strings. -/
def strIn (needle hay : String) : Bool := hasSubstr needle.data hay.data

/-- Python's `str.lower()`: lower-case every character (structural
version of `String.toLower`, identical on these ASCII keywords). -/
def pyLower (s : String) : String := String.mk (s.data.map Char.toLower)

/-- The fixed salary/income `optimization_suggestions` group (each
suggestion dict modelled as an association list). -/
def salaryOptSuggestions : List (List (String × String)) :=
  [[("strategy", "Maximize 80C deductions"),
    ("potential_saving", "Up to ₹46,500"), ("priority", "HIGH")],
   [("strategy", "Optimize health insurance"),
    ("potential_saving", "Up to ₹23,250"), ("priority", "HIGH")],
   [("strategy", "Consider NPS additional contribution"),
    ("potential_saving", "₹15,500"), ("priority", "MEDIUM")]]

/-- The fixed salary/income `next_steps` group. -/
def salaryNextSteps : List String :=
  ["Review current 80C investments and maximize to ₹1.5L limit",
   "Ensure health insurance for self and parents",
   "Compare old vs new tax regime based on deduction profile"]

/-- The fixed investment-planning `optimization_suggestions` group. -/
def investOptSuggestions : List (List (String × String)) :=
  [[("strategy", "ELSS mutual funds"),
    ("benefit", "Growth potential + 3-year lock-in"), ("priority", "HIGH")],
   [("strategy", "PPF contribution"),
    ("benefit", "EEE benefit + 15-year wealth building"), ("priority", "HIGH")],
   [("strategy", "Health insurance upgrade"),
    ("benefit", "Enhanced coverage + tax deduction"), ("priority", "MEDIUM")]]

/-- The fixed investment-planning `next_steps` group. -/
def investNextSteps : List String :=
  ["Start ELSS SIP for optimal growth and tax benefits",
   "Consider PPF for long-term stable returns",
   "Evaluate health insurance adequacy for family"]

/-- The extra `next_steps` appended for questions mentioning `form 16`. -/
def form16NextSteps : List String :=
  ["Verify TDS details against Form 26AS",
   "Check HRA exemption optimization",
   "Ensure all eligible deductions are claimed",
   "Compare tax liability under both regimes"]

/-- The local variables `(optimization_suggestions, regime_comparison,
next_steps)` as they stand at the end of the body of
`analyze_tax_scenario` (`regime_comparison` is never assigned and stays
the empty dict). -/
def analyzeLocals (question : String) :
    List (List (String × String)) × List (String × String) × List String :=
  let ql := pyLower question
  let salaryHit :=
    (["salary", "income", "form 16", "tax liability"].any (fun kw => strIn kw ql))
  let investHit :=
    (["investment", "80c", "tax saving", "deduction"].any (fun kw => strIn kw ql))
  let form16Hit := strIn "form 16" ql
  ((if salaryHit then salaryOptSuggestions else []) ++
     (if investHit then investOptSuggestions else []),
   [],
   (if salaryHit then salaryNextSteps else []) ++
     (if investHit then investNextSteps else []) ++
     (if form16Hit then form16NextSteps else []))

/-- Model of `analyze_tax_scenario(question, context_text)` from `app.py`: the
body computes the three locals of `analyzeLocals` but contains no
`return` statement, so the Python function always returns `None`
(modelled as `none`); `context_text` is never used. -/
def analyze_tax_scenario (question : String) :
    Option (List (List (String × String)) × List (String × String) × List String) :=
  (fun _ => none) (analyzeLocals question)

/-- The tuple unpacking in `chat`:
`optimization_suggestions, regime_comparison, next_steps =
analyze_tax_scenario(req.question, context_text)`.  Unpacking `None`
raises a `TypeError`. -/
def chatSuggestionStep (question : String) :
    Except String
      (List (List (String × String)) × List (String × String) × List String) :=
  match analyze_tax_scenario question with
  | some v => Except.ok v
  | none => Except.error "TypeError: cannot unpack non-iterable NoneType object"

/- ### Completion call with fallback (`app.py` chat, `ca_convo.py`) -/

/-- A propagating Python exception: the exception raised, plus the
exception (if any) that was being handled when it was raised — Python's
implicit chaining (`__context__`), shown in tracebacks.  Errors are
identified by their message string. -/
structure Raised where
  err : String
  context : Option String
deriving DecidableEq, Repr

/-- The `try`/`except` completion block of `chat` in `app.py`.  The two
external calls are passed in as their outcomes: `primary` for
`client.chat.completions.create` and `fallback` for
`client.responses.create`.  The primary result is used when it
succeeds (the fallback is never evaluated); on a primary exception `e`
the fallback is attempted exactly once; if it also raises `e2`, the
code executes `raise e2`, so the fallback's exception propagates, with
`e` attached only as its implicit context. -/
def chatCallModel (primary fallback : Except String String) :
    Except Raised String :=
  match primary with
  | Except.ok a => Except.ok a
  | Except.error e =>
    match fallback with
    | Except.ok b => Except.ok b
    | Except.error e2 => Except.error (Raised.mk e2 (some e))

/-- Model of `ChatSession._call_model` in `ca_convo.py`: same two attempts, but
on a double failure the code executes `raise e`, re-raising the
original primary exception (the fallback's exception becomes its
implicit context). -/
def convoCallModel (primary fallback : Except String String) :
    Except Raised String :=
  match primary with
  | Except.ok a => Except.ok a
  | Except.error e =>
    match fallback with
    | Except.ok b => Except.ok b
    | Except.error e2 => Except.error (Raised.mk e (some e2))

/- ### `ChatSession.send_message` (`ca_convo.py`) -/

/-- Model of `ChatSession.send_message`: `user_message` is the already-built
user message (`_build_user_message`), `callResult` the outcome of
`self._call_model(messages)`.  On success the user and assistant
messages are appended to `self.history`, which is then trimmed to the
last `max_history = 20` entries; on any exception the method returns an
error string and the history is untouched.  Returns the new history
and the returned string. -/
def send_message (history : List Msg) (userMessage : String)
    (callResult : Except Raised String) : List Msg × String :=
  match callResult with
  | Except.ok response =>
    let h := history ++ [Msg.mk "user" userMessage, Msg.mk "assistant" response]
    (if h.length > 20 then pyLastSlice 20 h else h, response)
  | Except.error e => (history, "❌ Error calling model: " ++ e.err)

/- ### Chunker lemmas -/

theorem sumLen_append (a b : List String) :
    sumLen (a ++ b) = sumLen a + sumLen b := by
  simp [sumLen]

theorem sumLen_reverse (a : List String) : sumLen a.reverse = sumLen a := by
  rw [sumLen, List.map_reverse, List.sum_reverse, sumLen]

/-- The backward walk returns a prefix of its (reversed) input. -/
theorem takeOverlapRev_eq_append (ov : Nat) :
    ∀ (l : List String) (acc : Nat),
      ∃ rest, l = takeOverlapRev ov acc l ++ rest := by
  intro l
  induction l with
  | nil => intro acc; exact ⟨[], rfl⟩
  | cons bl rest ih =>
    intro acc
    by_cases h : acc + bl.length > ov
    · refine ⟨rest, ?_⟩
      simp [takeOverlapRev, h]
    · obtain ⟨r, hr⟩ := ih (acc + bl.length)
      refine ⟨r, ?_⟩
      simp only [takeOverlapRev, if_neg h]
      simpa using congrArg (fun t => bl :: t) hr

/-- The backward walk either accumulates strictly more than `overlap`
characters or consumes the whole buffer. -/
theorem takeOverlapRev_spec (ov : Nat) :
    ∀ (l : List String) (acc : Nat),
      ov < acc + sumLen (takeOverlapRev ov acc l) ∨ takeOverlapRev ov acc l = l := by
  intro l
  induction l with
  | nil => intro acc; exact Or.inr rfl
  | cons bl rest ih =>
    intro acc
    by_cases h : acc + bl.length > ov
    · left
      simp only [takeOverlapRev, if_pos h]
      have : sumLen [bl] = bl.length := by simp [sumLen]
      omega
    · rcases ih (acc + bl.length) with h2 | h2
      · left
        simp only [takeOverlapRev, if_neg h]
        have : sumLen (bl :: takeOverlapRev ov (acc + bl.length) rest) =
            bl.length + sumLen (takeOverlapRev ov (acc + bl.length) rest) := by
          simp [sumLen]
        omega
      · right
        simp only [takeOverlapRev, if_neg h, h2]

/-- The overlap seed is a suffix of the buffer it was taken from. -/
theorem overlapTail_suffix (A : List String) (ov : Nat) :
    ∃ s, A = s ++ overlapTail A ov := by
  obtain ⟨rest, hr⟩ := takeOverlapRev_eq_append ov A.reverse 0
  refine ⟨rest.reverse, ?_⟩
  have := congrArg List.reverse hr
  simpa [overlapTail] using this

/-- The overlap seed accumulates strictly more than `overlap`
characters, unless it is the whole previous buffer. -/
theorem overlapTail_spec (A : List String) (ov : Nat) :
    ov < sumLen (overlapTail A ov) ∨ overlapTail A ov = A := by
  rcases takeOverlapRev_spec ov A.reverse 0 with h | h
  · left
    have : sumLen (overlapTail A ov) = sumLen (takeOverlapRev ov 0 A.reverse) := by
      simp [overlapTail, sumLen_reverse]
    omega
  · right
    have := congrArg List.reverse h
    simpa [overlapTail] using this

/-- Relation between adjacent emitted chunks: the next chunk starts with
the overlap seed of the previous one, and if at least two further lines
were packed after that seed, the plain greedy bound
`sumLen + 1 ≤ max_chars` holds for the next chunk. -/
def chunkRel (maxChars overlap : Nat) (A B : List String) : Prop :=
  (∃ t, B = overlapTail A overlap ++ t) ∧
    ((overlapTail A overlap).length + 2 ≤ B.length → sumLen B + 1 ≤ maxChars)

/-- Invariant of the list of chunks yielded so far. -/
def outOK (maxChars overlap : Nat) (out : List (List String)) : Prop :=
  List.Chain' (chunkRel maxChars overlap) out ∧
    (∀ B, out.head? = some B → 2 ≤ B.length → sumLen B + 1 ≤ maxChars) ∧
    (∀ B ∈ out, B ≠ [])

/-- The seed the current buffer started from: empty before the first
yield, the overlap tail of the last yielded chunk afterwards. -/
def seedOf (overlap : Nat) (out : List (List String)) : List String :=
  match out.getLast? with
  | none => []
  | some A => overlapTail A overlap

/-- Invariant of the whole loop state `(buffer, out)`. -/
def stInv (maxChars overlap : Nat) (st : List String × List (List String)) : Prop :=
  outOK maxChars overlap st.2 ∧
    ((st.1 = [] ∧ st.2 = []) ∨
      (∃ rest, rest ≠ [] ∧ st.1 = seedOf overlap st.2 ++ rest ∧
        (2 ≤ rest.length → sumLen st.1 + 1 ≤ maxChars)))

theorem seedOf_concat (overlap : Nat) (out : List (List String)) (buf : List String) :
    seedOf overlap (out ++ [buf]) = overlapTail buf overlap := by
  simp [seedOf, List.getLast?_concat]

/-- Appending the current buffer to the yielded chunks preserves the
chunk-list invariant. -/
theorem outOK_push (maxChars overlap : Nat) (out : List (List String))
    (buf rest : List String) (hOK : outOK maxChars overlap out)
    (hshape : buf = seedOf overlap out ++ rest) (hne : rest ≠ [])
    (hsz : 2 ≤ rest.length → sumLen buf + 1 ≤ maxChars) :
    outOK maxChars overlap (out ++ [buf]) := by
  obtain ⟨hchain, hhead, hmem⟩ := hOK
  have hbufne : buf ≠ [] := by
    rw [hshape]
    intro h
    exact hne (List.append_eq_nil.mp h).2
  refine ⟨?_, ?_, ?_⟩
  · rw [List.chain'_append]
    refine ⟨hchain, List.chain'_singleton _, ?_⟩
    intro x hx y hy
    have hx' : out.getLast? = some x := hx
    have hy' : buf = y := by simpa using hy
    have hseed : seedOf overlap out = overlapTail x overlap := by
      simp [seedOf, hx']
    rw [← hy']
    constructor
    · exact ⟨rest, by rw [hshape, hseed]⟩
    · intro hlen
      apply hsz
      have hblen : buf.length = (overlapTail x overlap).length + rest.length := by
        rw [hshape, hseed, List.length_append]
      omega
  · cases out with
    | nil =>
      intro B hB
      have hB' : buf = B := by simpa using hB
      subst hB'
      intro hlen
      apply hsz
      have hseed0 : seedOf overlap ([] : List (List String)) = [] := by
        simp [seedOf]
      rw [hseed0] at hshape
      simpa [hshape] using hlen
    | cons o os =>
      intro B hB
      have hB' : B = o := by
        have : (o :: (os ++ [buf])).head? = some B := by simpa using hB
        simpa using this.symm
      subst hB'
      exact hhead B (by simp)
  · intro B hB
    rcases List.mem_append.mp hB with h | h
    · exact hmem B h
    · have hB' : B = buf := by simpa using h
      subst hB'
      exact hbufne

/-- One loop iteration of `chunk_lines` preserves the state invariant. -/
theorem stInv_step (maxChars overlap : Nat)
    (st : List String × List (List String)) (line : String)
    (h : stInv maxChars overlap st) :
    stInv maxChars overlap (chunkStep maxChars overlap st line) := by
  obtain ⟨hOK, hbuf⟩ := h
  by_cases hcond : sumLen st.1 + line.length + 1 > maxChars ∧ st.1 ≠ []
  · have hne : st.1 ≠ [] := hcond.2
    rcases hbuf with ⟨h1, _⟩ | ⟨rest, hrne, hshape, hsz⟩
    · exact absurd h1 hne
    · have hpush := outOK_push maxChars overlap st.2 st.1 rest hOK hshape hrne hsz
      refine ⟨?_, ?_⟩
      · simpa [chunkStep, if_pos hcond] using hpush
      · right
        refine ⟨[line], by simp, ?_, ?_⟩
        · simp [chunkStep, if_pos hcond, seedOf_concat]
        · intro hlen
          simp at hlen
  · refine ⟨?_, ?_⟩
    · simpa [chunkStep, if_neg hcond] using hOK
    · right
      rcases hbuf with ⟨h1, h2⟩ | ⟨rest, hrne, hshape, hsz⟩
      · refine ⟨[line], by simp, ?_, ?_⟩
        · simp [chunkStep, if_neg hcond, h1, h2, seedOf]
        · intro hlen
          simp [chunkStep, if_neg hcond, h1] at hlen ⊢
      · have hne : st.1 ≠ [] := by
          rw [hshape]
          intro hcontra
          exact hrne (List.append_eq_nil.mp hcontra).2
        have hle : sumLen st.1 + line.length + 1 ≤ maxChars := by
          rcases not_and_or.mp hcond with h | h
          · omega
          · exact absurd hne h
        refine ⟨rest ++ [line], by simp, ?_, ?_⟩
        · simp only [chunkStep, if_neg hcond]
          rw [hshape, List.append_assoc]
        · intro _
          have : sumLen (st.1 ++ [line]) = sumLen st.1 + line.length := by
            simp [sumLen_append, sumLen]
          simp only [chunkStep, if_neg hcond]
          omega

/-- The whole `for` loop of `chunk_lines` preserves the state invariant. -/
theorem stInv_foldl (maxChars overlap : Nat) (lines : List String) :
    ∀ st, stInv maxChars overlap st →
      stInv maxChars overlap (lines.foldl (chunkStep maxChars overlap) st) := by
  induction lines with
  | nil => intro st h; exact h
  | cons l ls ih =>
    intro st h
    exact ih _ (stInv_step maxChars overlap st l h)

/-- Every run of `chunk_lines` produces a chunk list satisfying the
head bound, the adjacency relation, and non-emptiness of every chunk. -/
theorem chunkLinesList_outOK (lines : List String) (maxChars overlap : Nat) :
    outOK maxChars overlap (chunkLinesList lines maxChars overlap) := by
  have h0 : stInv maxChars overlap ([], []) := by
    refine ⟨⟨List.chain'_nil, ?_, ?_⟩, Or.inl ⟨rfl, rfl⟩⟩
    · intro B hB; simp at hB
    · intro B hB; simp at hB
  have hst := stInv_foldl maxChars overlap lines ([], []) h0
  obtain ⟨hOK, hbuf⟩ := hst
  rw [chunkLinesList]
  by_cases hb : (lines.foldl (chunkStep maxChars overlap) ([], [])).1 = []
  · simpa [hb] using hOK
  · rcases hbuf with ⟨h1, _⟩ | ⟨rest, hrne, hshape, hsz⟩
    · exact absurd h1 hb
    · simpa [hb] using
        outOK_push maxChars overlap _ _ rest hOK hshape hrne hsz

/-- Length of the tail-recursive join used by `String.intercalate`. -/
theorem intercalate_go_length (sep : String) :
    ∀ (as : List String) (acc : String),
      (String.intercalate.go acc sep as).length =
        acc.length + sumLen as + sep.length * as.length := by
  intro as
  induction as with
  | nil => intro acc; simp [String.intercalate.go, sumLen]
  | cons a as ih =>
    intro acc
    rw [String.intercalate.go, ih]
    simp only [String.length_append, sumLen, List.map_cons, List.sum_cons,
      List.length_cons]
    ring

/-- The `"\n"`-joined text of a nonempty chunk is one character shorter
than its line-length sum plus its line count. -/
theorem intercalate_newline_length (B : List String) (h : B ≠ []) :
    (String.intercalate "\n" B).length + 1 = sumLen B + B.length := by
  cases B with
  | nil => exact absurd rfl h
  | cons a as =>
    rw [String.intercalate, intercalate_go_length]
    have hsep : ("\n" : String).length = 1 := rfl
    simp only [hsep, sumLen, List.map_cons, List.sum_cons, List.length_cons]
    have : sumLen as = (as.map String.length).sum := rfl
    omega

/- ### Retriever lemmas -/

theorem insertDesc_length {α : Type} (key : α → ℝ) (x : α) (l : List α) :
    (insertDesc key x l).length = l.length + 1 := by
  induction l with
  | nil => rfl
  | cons y ys ih =>
    by_cases h : key y ≤ key x
    · simp [insertDesc, if_pos h]
    · simp [insertDesc, if_neg h, ih]

theorem sortDesc_length {α : Type} (key : α → ℝ) (l : List α) :
    (sortDesc key l).length = l.length := by
  induction l with
  | nil => rfl
  | cons x xs ih => simp [sortDesc, insertDesc_length, ih]

theorem mem_insertDesc {α : Type} (key : α → ℝ) (x a : α) (l : List α) :
    a ∈ insertDesc key x l ↔ a = x ∨ a ∈ l := by
  induction l with
  | nil => simp [insertDesc]
  | cons y ys ih =>
    by_cases h : key y ≤ key x
    · simp [insertDesc, if_pos h]
    · simp only [insertDesc, if_neg h, List.mem_cons, ih]
      tauto

/-- Inserting into a descending-sorted list keeps it descending-sorted. -/
theorem insertDesc_pairwise {α : Type} (key : α → ℝ) (x : α) (l : List α)
    (h : l.Pairwise (fun a b => key b ≤ key a)) :
    (insertDesc key x l).Pairwise (fun a b => key b ≤ key a) := by
  induction l with
  | nil => simp [insertDesc]
  | cons y ys ih =>
    obtain ⟨hy, hys⟩ := List.pairwise_cons.mp h
    by_cases hxy : key y ≤ key x
    · rw [insertDesc, if_pos hxy]
      refine List.pairwise_cons.mpr ⟨?_, h⟩
      intro z hz
      rcases List.mem_cons.mp hz with rfl | hz'
      · exact hxy
      · exact le_trans (hy z hz') hxy
    · rw [insertDesc, if_neg hxy]
      refine List.pairwise_cons.mpr ⟨?_, ih hys⟩
      intro z hz
      rcases (mem_insertDesc key x z ys).mp hz with rfl | hz'
      · exact le_of_lt (not_le.mp hxy)
      · exact hy z hz'

/-- The stable descending sort is descending-sorted. -/
theorem sortDesc_pairwise {α : Type} (key : α → ℝ) (l : List α) :
    (sortDesc key l).Pairwise (fun a b => key b ≤ key a) := by
  induction l with
  | nil => simp [sortDesc]
  | cons x xs ih => exact insertDesc_pairwise key x _ ih

/-- Filtering any single key value through a stable insertion: the
inserted element lands in front of the equal-key elements already
present iff it has that key (every element it was placed behind has a
strictly greater key). -/
theorem insertDesc_filter {α : Type} (key : α → ℝ) (c : ℝ) (x : α)
    (l : List α) :
    (insertDesc key x l).filter (fun a => decide (key a = c)) =
      if key x = c then x :: l.filter (fun a => decide (key a = c))
      else l.filter (fun a => decide (key a = c)) := by
  induction l with
  | nil =>
    by_cases h : key x = c <;> simp [insertDesc, h]
  | cons y ys ih =>
    by_cases hxy : key y ≤ key x
    · rw [insertDesc, if_pos hxy]
      by_cases hx : key x = c <;> simp [List.filter_cons, hx]
    · rw [insertDesc, if_neg hxy]
      by_cases hx : key x = c
      · have hyc : ¬ key y = c := by
          intro hy
          exact hxy (le_of_eq (hx ▸ hy))
        simp [List.filter_cons, hx, hyc, ih]
      · by_cases hy : key y = c <;> simp [List.filter_cons, hx, hy, ih]

/-- Stability of the sort: for every key value, the equal-key elements
appear in the sorted list exactly in their original order. -/
theorem sortDesc_filter {α : Type} (key : α → ℝ) (c : ℝ) (l : List α) :
    (sortDesc key l).filter (fun a => decide (key a = c)) =
      l.filter (fun a => decide (key a = c)) := by
  induction l with
  | nil => rfl
  | cons x xs ih =>
    rw [sortDesc, insertDesc_filter]
    by_cases hx : key x = c <;> simp [List.filter_cons, hx, ih]

/- ### Claim C1 -/

/-- C1 (code bug): the keyword-trigger derivation itself is a
deterministic function of the lowercased question and is additive
(`analyzeLocals` of a question matching both the salary and the
investment triggers is the concatenation of both fixed groups), but
`analyze_tax_scenario` has no `return` statement, so it returns `None`
for every question and the tuple unpacking in `chat` raises a
`TypeError` instead of returning the accumulated suggestions. -/
theorem c1_analyze_tax_scenario_returns_none :
    (∀ q : String, analyze_tax_scenario q = none) ∧
    (∀ q : String, chatSuggestionStep q =
      Except.error "TypeError: cannot unpack non-iterable NoneType object") ∧
    analyzeLocals "How much salary tax can I save via investment?" =
      (salaryOptSuggestions ++ investOptSuggestions, [],
        salaryNextSteps ++ investNextSteps) := by
  refine ⟨fun q => rfl, fun q => rfl, ?_⟩
  decide

/- ### Claim C4 -/

/-- C4 counterexample: in `chat` (`app.py`), when the primary call
raises `"primary failure"` and the fallback raises
`"fallback failure"`, the exception that propagates out of the request
is the fallback's (`raise e2`), not the original primary-path error,
which survives only as the implicit exception context. -/
theorem c4_counterexample :
    chatCallModel (Except.error "primary failure")
        (Except.error "fallback failure") =
      Except.error (Raised.mk "fallback failure" (some "primary failure")) ∧
    Raised.err (Raised.mk "fallback failure" (some "primary failure")) ≠
      "primary failure" := by
  exact ⟨rfl, by decide⟩

/-- C4 as amended: the primary convention is attempted first and its
value used if it succeeds (the fallback is never consulted); on a
primary exception the fallback is attempted exactly once and its text
returned with no error when it succeeds; if both fail,
`ChatSession._call_model` re-raises the original primary exception
(fallback error kept as implicit context), while `chat` in `app.py`
raises the fallback's exception (original kept only as implicit
context). -/
theorem c4_fallback_behavior (a b e e2 : String)
    (f : Except String String) :
    chatCallModel (Except.ok a) f = Except.ok a ∧
    chatCallModel (Except.error e) (Except.ok b) = Except.ok b ∧
    chatCallModel (Except.error e) (Except.error e2) =
      Except.error (Raised.mk e2 (some e)) ∧
    convoCallModel (Except.ok a) f = Except.ok a ∧
    convoCallModel (Except.error e) (Except.ok b) = Except.ok b ∧
    convoCallModel (Except.error e) (Except.error e2) =
      Except.error (Raised.mk e (some e2)) :=
  ⟨rfl, rfl, rfl, rfl, rfl, rfl⟩

/- ### Claim C5 -/

/-- C5 counterexample: with the output store present and `--force`
absent, `ingest.main` neither raises any error condition nor touches
the store — it prints a notice and returns normally, so no
`AlreadyExists` error is signalled. -/
theorem c5_counterexample :
    ingestMain true true false true 1 = MainOutcome.earlyReturn ∧
    (ingestMain true true false true 1).isErrorSignal = false ∧
    (ingestMain true true false true 1).wroteStore = false := by
  refine ⟨?_, ?_, ?_⟩ <;> decide

/-- C5 as amended: whenever the output store exists and `--force` was
not given (with `EMBED_MODEL` set, as it is by default), `main` refuses
to overwrite the store — it returns early after a printed notice,
signals no error condition, and leaves the existing store unchanged. -/
theorem c5_refuses_overwrite_without_force (dataDirExists : Bool)
    (numFiles : Nat) :
    ingestMain true true false dataDirExists numFiles =
      MainOutcome.earlyReturn ∧
    (ingestMain true true false dataDirExists numFiles).wroteStore = false ∧
    (ingestMain true true false dataDirExists numFiles).isErrorSignal
      = false := by
  refine ⟨?_, ?_, ?_⟩ <;>
    simp [ingestMain, MainOutcome.wroteStore, MainOutcome.isErrorSignal]

/- ### Claim C9 -/

/-- C9: `load_and_chunk` turns any exception raised while reading,
parsing, or chunking a file into an empty chunk list, and a failing
file contributes exactly nothing to the ingestion run's accumulated
chunks — the run continues as if the file were absent. -/
theorem c9_load_and_chunk_catches_all (err : String) (maxChars overlap : Nat)
    (files1 files2 : List (Except String (List String))) :
    load_and_chunk (Except.error err) maxChars overlap = [] ∧
    mainAllChunks (files1 ++ Except.error err :: files2) maxChars overlap =
      mainAllChunks (files1 ++ files2) maxChars overlap := by
  refine ⟨rfl, ?_⟩
  simp [mainAllChunks, load_and_chunk]

/- ### Claim C10 -/

/-- C10: `send_message` leaves the history exactly unchanged and
returns an error string when both calling conventions fail, and only
on a successful model call appends the user and assistant messages
(then bounded to the last 20 entries; the branchless trailing slice
equals the code's conditional trim). -/
theorem c10_send_message_history (history : List Msg)
    (userMessage e e2 resp : String) (f : Except String String) :
    send_message history userMessage
        (convoCallModel (Except.error e) (Except.error e2)) =
      (history, "❌ Error calling model: " ++ e) ∧
    (send_message history userMessage
        (convoCallModel (Except.ok resp) f)).2 = resp ∧
    (send_message history userMessage
        (convoCallModel (Except.ok resp) f)).1 =
      pyLastSlice 20
        (history ++ [Msg.mk "user" userMessage, Msg.mk "assistant" resp]) ∧
    (send_message history userMessage
        (convoCallModel (Except.error e) (Except.ok resp))).1 =
      pyLastSlice 20
        (history ++ [Msg.mk "user" userMessage, Msg.mk "assistant" resp]) := by
  have htrim : ∀ h : List Msg, (if h.length > 20 then pyLastSlice 20 h else h) =
      pyLastSlice 20 h := by
    intro h
    by_cases hl : h.length > 20
    · rw [if_pos hl]
    · rw [if_neg hl, pyLastSlice]
      have : h.length - 20 = 0 := by omega
      rw [this, List.drop_zero]
  exact ⟨rfl, rfl, htrim _, htrim _⟩

/- ### Claim C2 -/

/-- C2 counterexample: with `max_chars = 4 > 0` and `overlap = 0`,
the input lines `["a", "b", "c"]` produce the single chunk
`"a\nb\nc"` of joined length `5 > 4`, and that chunk consists of three
lines, not of a single atomic line longer than `max_chars` — the size
accounting of `chunk_lines` charges only one newline separator, so a
multi-line chunk's joined text can exceed `max_chars`. -/
theorem c2_counterexample :
    chunk_lines ["a", "b", "c"] 4 0 = ["a\nb\nc"] ∧
    ("a\nb\nc").length = 5 ∧ 4 < 5 ∧
    chunkLinesList ["a", "b", "c"] 4 0 = [["a", "b", "c"]] := by
  refine ⟨by decide, by decide, by omega, by decide⟩

/-- C2 as amended: for every input and parameters, every emitted chunk
whose line count exceeds its overlap seed's line count by at least two
(for the first chunk: every chunk of at least two lines) has its total
line-character count at most `max_chars - 1`; every chunk's
newline-joined length equals that count plus (line count − 1), so the
joined text may exceed `max_chars` only by the uncounted separators.
Chunks that are a single atomic line, or an overlap seed plus the
single line appended right after a split, may exceed `max_chars`
outright.  Empty input still yields no chunks. -/
theorem c2_chunk_size_bound (lines : List String) (maxChars overlap : Nat) :
    (∀ B, (chunkLinesList lines maxChars overlap).head? = some B →
      2 ≤ B.length → sumLen B + 1 ≤ maxChars) ∧
    List.Chain'
      (fun A B => (overlapTail A overlap).length + 2 ≤ B.length →
        sumLen B + 1 ≤ maxChars)
      (chunkLinesList lines maxChars overlap) ∧
    (∀ B ∈ chunkLinesList lines maxChars overlap,
      (String.intercalate "\n" B).length + 1 = sumLen B + B.length) ∧
    chunkLinesList ([] : List String) maxChars overlap = [] := by
  obtain ⟨hchain, hhead, hmem⟩ := chunkLinesList_outOK lines maxChars overlap
  refine ⟨hhead, ?_, ?_, rfl⟩
  · exact hchain.imp (fun a b h => h.2)
  · intro B hB
    exact intercalate_newline_length B (hmem B hB)

/-- C2 witness at the counterexample input: the amended bound pack
holds for `["a", "b", "c"]`, `max_chars = 4`, `overlap = 0`. -/
theorem c2_chunk_size_bound_witness :
    List.Chain'
      (fun A B => (overlapTail A 0).length + 2 ≤ B.length →
        sumLen B + 1 ≤ 4)
      (chunkLinesList ["a", "b", "c"] 4 0) :=
  (c2_chunk_size_bound ["a", "b", "c"] 4 0).2.1

/- ### Claim C8 -/

/-- C8: for every adjacent pair of emitted chunks the overlap seed is a
trailing slice of the earlier chunk, appears in order as a prefix of
the later chunk, and its accumulated character count exceeds `overlap`
unless it is the whole earlier chunk (fewer lines than needed). -/
theorem c8_overlap_seed_property (lines : List String)
    (maxChars overlap : Nat) :
    List.Chain'
      (fun A B =>
        (∃ s, A = s ++ overlapTail A overlap) ∧
        (∃ t, B = overlapTail A overlap ++ t) ∧
        (overlap < sumLen (overlapTail A overlap) ∨
          overlapTail A overlap = A))
      (chunkLinesList lines maxChars overlap) := by
  refine ((chunkLinesList_outOK lines maxChars overlap).1).imp ?_
  intro a b h
  exact ⟨overlapTail_suffix a overlap, h.1, overlapTail_spec a overlap⟩

/- ### Claim C3 -/

/-- C3 counterexample: on a two-record corpus, `retrieve` with
`k = -1 ≤ 0` returns one record, not an empty result — `scored[:k]`
follows Python's negative-slice semantics and drops only the last
element. -/
theorem c3_counterexample :
    retrieve [] [KBRec.mk "t1" [], KBRec.mk "t2" []] (-1) =
      [KBRec.mk "t1" []] ∧
    [KBRec.mk "t1" []] ≠ ([] : List KBRec) := by
  constructor
  · have h0 : cosine [] ([] : List ℝ) = 0 := by
      simp [cosine, dotR]
    have hsort : sortDesc (fun rec => cosine [] rec.embedding)
        [KBRec.mk "t1" [], KBRec.mk "t2" []] =
        [KBRec.mk "t1" [], KBRec.mk "t2" []] := by
      simp [sortDesc, insertDesc, h0]
    rw [retrieve, hsort, pySlice]
    norm_num
  · simp

/-- C3 as amended: `retrieve` with `k = 0` returns an empty result;
with `k < 0` it follows Python slice semantics, returning the sorted
corpus minus its last `-k` elements (empty only when the corpus is no
larger than `-k`); with `k` at least the corpus size it returns the
entire corpus sorted by score. -/
theorem c3_slice_semantics (qv : List ℝ) (kb : List KBRec) (k : ℤ) :
    (k = 0 → retrieve qv kb k = []) ∧
    ((kb.length : ℤ) ≤ k →
      retrieve qv kb k = sortDesc (fun rec => cosine qv rec.embedding) kb) ∧
    (k < 0 → retrieve qv kb k =
      (sortDesc (fun rec => cosine qv rec.embedding) kb).take
        ((kb.length : ℤ) + k).toNat) := by
  refine ⟨?_, ?_, ?_⟩
  · intro hk
    subst hk
    rw [retrieve, pySlice, if_pos le_rfl]
    rfl
  · intro hk
    have h0 : (0 : ℤ) ≤ k := le_trans (by positivity) hk
    rw [retrieve, pySlice, if_pos h0]
    apply List.take_of_length_le
    rw [sortDesc_length]
    omega
  · intro hk
    rw [retrieve, pySlice, if_neg (by omega)]
    rw [sortDesc_length]

/-- C3 witness: the amended slice behaviour at concrete inputs. -/
theorem c3_slice_semantics_witness :
    retrieve [] ([] : List KBRec) 0 = [] :=
  (c3_slice_semantics [] [] 0).1 rfl

/- ### Claim C6 -/

/-- C6: for `k > 0`, `retrieve` returns `min k (corpus size)` records,
ordered by non-increasing cosine score (the score of each record being
exactly `cosine` of the query vector and its embedding), and ties are
broken stably: for every score value, the returned records with that
score are an initial segment of the corpus records with that score, in
original corpus order. -/
theorem c6_retrieve_ordering (qv : List ℝ) (kb : List KBRec) (k : ℤ)
    (hk : 0 < k) :
    (retrieve qv kb k).length = min k.toNat kb.length ∧
    List.Pairwise
      (fun r s => cosine qv s.embedding ≤ cosine qv r.embedding)
      (retrieve qv kb k) ∧
    ∀ c : ℝ, ∃ rest,
      kb.filter (fun r => decide (cosine qv r.embedding = c)) =
        (retrieve qv kb k).filter
          (fun r => decide (cosine qv r.embedding = c)) ++ rest := by
  have hpos : (0 : ℤ) ≤ k := le_of_lt hk
  have hret : retrieve qv kb k =
      (sortDesc (fun rec => cosine qv rec.embedding) kb).take k.toNat := by
    rw [retrieve, pySlice, if_pos hpos]
  refine ⟨?_, ?_, ?_⟩
  · rw [hret, List.length_take, sortDesc_length]
  · rw [hret]
    exact (sortDesc_pairwise (fun rec => cosine qv rec.embedding) kb).sublist
      (List.take_sublist _ _)
  · intro c
    refine ⟨((sortDesc (fun rec => cosine qv rec.embedding) kb).drop
      k.toNat).filter (fun r => decide (cosine qv r.embedding = c)), ?_⟩
    rw [hret, ← List.filter_append, List.take_append_drop]
    exact (sortDesc_filter (fun rec => cosine qv rec.embedding) c kb).symm

/-- C6 witness: the ordering pack at a concrete corpus and `k = 1`. -/
theorem c6_retrieve_ordering_witness :
    (0 : ℤ) < 1 ∧
    ((retrieve [] ([] : List KBRec) 1).length =
        min (1 : ℤ).toNat (List.length ([] : List KBRec)) ∧
      List.Pairwise
        (fun r s : KBRec => cosine [] s.embedding ≤ cosine [] r.embedding)
        (retrieve [] ([] : List KBRec) 1) ∧
      ∀ c : ℝ, ∃ rest,
        ([] : List KBRec).filter
            (fun r => decide (cosine [] r.embedding = c)) =
          (retrieve [] ([] : List KBRec) 1).filter
            (fun r => decide (cosine [] r.embedding = c)) ++ rest) :=
  ⟨by norm_num, c6_retrieve_ordering [] [] 1 (by norm_num)⟩

/- ### Claim C7 -/

/-- C7: the assembled sequence is exactly one system message, then the
most recent five history messages in chronological order (older ones
dropped), then exactly one final user message embedding the question
and the context section; a 30-message history yields 7 messages, and
empty history with an empty retrieval result yields exactly 2 messages
whose user message still contains the (empty) context section and the
fixed instruction block. -/
theorem c7_message_assembly (sp : String) (hist : List Msg)
    (q ctx : String) :
    assembleMessages sp hist q ctx =
      Msg.mk "system" sp ::
        (hist.drop (hist.length - 5) ++
          [Msg.mk "user" (userContent q ctx)]) ∧
    (assembleMessages sp hist q ctx).length = 2 + min 5 hist.length ∧
    (assembleMessages sp hist q ctx).head? = some (Msg.mk "system" sp) ∧
    (assembleMessages sp hist q ctx).getLast? =
      some (Msg.mk "user" (userContent q ctx)) ∧
    (hist.length = 30 → (assembleMessages sp hist q ctx).length = 7) ∧
    assembleMessages sp [] q (contextTextOf []) =
      [Msg.mk "system" sp, Msg.mk "user" (userContent q "")] ∧
    contextTextOf [] = "" ∧
    (∃ s1 s2 s3, userContent q "" =
      s1 ++ "Context:\n" ++ s2 ++ "Instructions: " ++ s3) := by
  have hlen : (assembleMessages sp hist q ctx).length =
      2 + min 5 hist.length := by
    simp [assembleMessages, pyLastSlice]
    omega
  refine ⟨rfl, hlen, rfl, ?_, ?_, rfl, rfl, ?_⟩
  · show (Msg.mk "system" sp ::
      (pyLastSlice 5 hist ++ [Msg.mk "user" (userContent q ctx)])).getLast?
      = _
    rw [← List.cons_append, List.getLast?_concat]
  · intro h30
    rw [hlen, h30]
    omega
  · refine ⟨"Question: " ++ q ++ "\n\n", "\n\n",
      "\n1. Provide comprehensive analysis using structured tables\n2. Always include tax optimization opportunities when applicable\n3. Compare old vs new regime when income/tax calculations are involved\n4. Suggest specific investment options and amounts\n5. Provide actionable next steps\n6. Use the provided context for accurate figures and calculations\n\nAnswer:",
      ?_⟩
    rw [userContent, instructionsBlock]
    simp only [String.append_assoc]
    rfl

/-- C7 witness: the empty-history, empty-retrieval instance of the
assembly theorem. -/
theorem c7_message_assembly_witness :
    assembleMessages "s" [] "q" (contextTextOf []) =
      [Msg.mk "system" "s", Msg.mk "user" (userContent "q" "")] :=
  (c7_message_assembly "s" [] "q" (contextTextOf [])).2.2.2.2.2.1
